import Mathlib

/-!
Verification of the multilayer Elman RNN forward pass implemented in
`rnn_by_hand.ipynb` (`compute_new_hidden_state`, `MyRNN.__init__`,
`MyRNN.forward`).

Tensors are modelled as nested lists of integers (the source computes over
64-bit floats; every claim here is structural, no source operation divides,
and the activation function is an arbitrary parameter, so the discrete
subring of scalars loses nothing while keeping every definition
kernel-executable); rank-3 and rank-4 tensors are lists of matrices.  Every fallible tensor operation of the
source (matrix multiplication with dimension agreement, bias broadcast,
indexing) returns an `Option`, with `none` standing for the runtime
error the source would raise.  The NaN sentinel used by the source to
mark unwritten grid cells is modelled by `Option`-valued cells: `none`
is an unwritten (NaN-initialised) cell.
-/

set_option autoImplicit false

namespace RNN

abbrev Vec := List ℤ

abbrev Mat := List Vec

/-- The hidden-state grid: one optional matrix per (timestep, layer) cell. -/
abbrev Grid := List (List (Option Mat))

/-- Bounds-checked indexing, modelling a nonnegative subscript in the source. -/
def nth {α : Type _} : List α → ℕ → Option α
  | [], _ => none
  | a :: _, 0 => some a
  | _ :: xs, n + 1 => nth xs n

/-- Write at an index; the source's loop only performs in-range writes. -/
def setNth {α : Type _} : List α → ℕ → α → List α
  | [], _, _ => []
  | _ :: xs, 0, v => v :: xs
  | a :: xs, n + 1, v => a :: setNth xs n v

/-- The list 0, 1, ..., n-1, modelling the iteration order of range(n). -/
def upTo : ℕ → List ℕ
  | 0 => []
  | n + 1 => upTo n ++ [n]

/-- Run a loop body over a list of indices, aborting on the first failure. -/
def forLoop {σ : Type _} (f : σ → ℕ → Option σ) : List ℕ → σ → Option σ
  | [], s => some s
  | i :: is, s => (f s i).bind (forLoop f is)

/-- Subscript -1 in the source: last element, error on an empty dimension. -/
def pyLast {α : Type _} (xs : List α) : Option α :=
  if xs.length = 0 then none else nth xs (xs.length - 1)

/-- Dot product of two rows (used to express matrix multiplication). -/
def dot (xs ys : Vec) : ℤ :=
  (List.zipWith (fun a b => a * b) xs ys).sum

/-- Transpose, modelling the source's weight.T on a rectangular matrix. -/
def tT (A : Mat) : Mat :=
  (upTo ((nth A 0).getD []).length).map (fun j => A.map (fun r => (nth r j).getD 0))

/-- Matrix multiplication with the dimension-agreement check of the source. -/
def matmul (A B : Mat) : Option Mat :=
  if A.all (fun r => r.length == B.length) then
    some (A.map (fun r => (tT B).map (fun c => dot r c)))
  else none

/-- Add a bias to a matrix.  `none` models the integer default 0 returned by
params.get for a model built without bias: adding the scalar 0 is the
identity.  A present bias vector broadcasts across the batch dimension. -/
def addBias (A : Mat) (b : Option Vec) : Option Mat :=
  match b with
  | none => some A
  | some v =>
    if A.all (fun r => r.length == v.length) then
      some (A.map (fun r => List.zipWith (fun a c => a + c) r v))
    else none

/-- Elementwise matrix addition with the shape-agreement check of the source. -/
def addMat (A C : Mat) : Option Mat :=
  if A.length == C.length && (List.zipWith (fun r s => r.length == s.length) A C).all id then
    some (List.zipWith (fun r s => List.zipWith (fun a c => a + c) r s) A C)
  else none

/-- Apply the activation function elementwise. -/
def mapMat (f : ℤ → ℤ) (A : Mat) : Mat :=
  A.map (fun r => r.map f)

/-- The Step Function: activation(prev @ weight_hh.T + bias_hh + inputs @ weight_ih.T + bias_ih),
with the source's left-to-right evaluation order. -/
def compute_new_hidden_state (previous_hidden_state inputs weight_hh : Mat)
    (bias_hh : Option Vec) (weight_ih : Mat) (bias_ih : Option Vec)
    (activation_func : ℤ → ℤ) : Option Mat :=
  (matmul previous_hidden_state (tT weight_hh)).bind fun a =>
  (addBias a bias_hh).bind fun b =>
  (matmul inputs (tT weight_ih)).bind fun c =>
  (addMat b c).bind fun d =>
  (addBias d bias_ih).bind fun e =>
  some (mapMat activation_func e)

/-- The Parameter Store of MyRNN: per-layer lookups model
params.get of the keys weight_hh_l, bias_hh_l, weight_ih_l, bias_ih_l
followed by the layer number; a missing weight key yields `none` (an error
at the point of use), a missing bias key yields the additive zero default. -/
structure RNNParams where
  num_layers : ℕ
  hidden_size : ℕ
  weight_hh : ℕ → Option Mat
  bias_hh : ℕ → Option Vec
  weight_ih : ℕ → Option Mat
  bias_ih : ℕ → Option Vec
  activation_func : ℤ → ℤ

/-- The two activation functions MyRNN.__init__ can select. -/
inductive Activation where
  | relu : Activation
  | tanh : Activation
deriving DecidableEq

/-- Activation selection in MyRNN.__init__: torch.relu if
rnn.nonlinearity == "relu" else torch.tanh. -/
def selectActivation (nonlinearity : String) : Activation :=
  if nonlinearity = "relu" then Activation.relu else Activation.tanh

/-- The default initial hidden state: torch.zeros(num_layers, batch_size, hidden_size). -/
def defaultHidden0 (rnn : RNNParams) (batch_size : ℕ) : List Mat :=
  List.replicate rnn.num_layers
    (List.replicate batch_size (List.replicate rnn.hidden_size (0 : ℤ)))

/-- The freshly allocated hidden-state grid, every cell in the NaN sentinel
state (modelled by `none`). -/
def initGrid (seq_length num_layers : ℕ) : Grid :=
  List.replicate seq_length (List.replicate num_layers (none : Option Mat))

/-- One iteration of the inner loop body at cell (idx, layer): select the
previous hidden state and the layer input, fetch the layer's parameters,
run the Step Function, and write the result into the grid. -/
def stepCell (rnn : RNNParams) (X : List Mat) (hidden_0 : List Mat)
    (g : Grid) (idx layer : ℕ) : Option Grid :=
  (if idx = 0 then some (hidden_0.map some) else nth g (idx - 1)).bind
    fun previous_hidden_states =>
  (nth previous_hidden_states layer).bind fun cell =>
  cell.bind fun previous_hidden_state =>
  (if layer = 0 then nth X idx
   else (nth g idx).bind fun row => (nth row (layer - 1)).bind id).bind fun inputs =>
  (rnn.weight_hh layer).bind fun weight_hh =>
  (rnn.weight_ih layer).bind fun weight_ih =>
  (compute_new_hidden_state previous_hidden_state inputs weight_hh
    (rnn.bias_hh layer) weight_ih (rnn.bias_ih layer) rnn.activation_func).bind fun v =>
  some (setNth g idx (setNth ((nth g idx).getD []) layer (some v)))

/-- The inner loop: for layer in range(num_layers). -/
def innerLoop (rnn : RNNParams) (X : List Mat) (hidden_0 : List Mat)
    (idx : ℕ) (g : Grid) : Option Grid :=
  forLoop (fun g2 layer => stepCell rnn X hidden_0 g2 idx layer) (upTo rnn.num_layers) g

/-- The double loop: for idx in range(seq_length): for layer in range(num_layers). -/
def runLoop (rnn : RNNParams) (X : List Mat) (hidden_0 : List Mat)
    (seq_length : ℕ) : Option Grid :=
  forLoop (fun g idx => innerLoop rnn X hidden_0 idx g) (upTo seq_length)
    (initGrid seq_length rnn.num_layers)

/-- The assert: not hidden_states.isnan().any() — no sentinel cell remains. -/
def gridFilled (g : Grid) : Bool :=
  g.all (fun row => row.all (fun c => c.isSome))

/-- The output view hidden_states[:, -1]: the last layer's state at each
timestep; fails if a layer dimension is empty or a cell is unwritten. -/
def lastCells : Grid → Option (List Mat)
  | [] => some []
  | row :: rest =>
    ((pyLast row).bind id).bind fun m =>
    (lastCells rest).map (fun ms => m :: ms)

/-- Extraction of the matrices of one grid row (used for hidden_states[-1]). -/
def rowMats : List (Option Mat) → Option (List Mat)
  | [] => some []
  | c :: rest =>
    c.bind fun m =>
    (rowMats rest).map (fun ms => m :: ms)

/-- The Sequence Driver MyRNN.forward: substitute the zero default for an
absent hidden_0, allocate the sentinel grid, run the double loop, check the
no-sentinel assertion, and extract the two output views
(hidden_states[:, -1], hidden_states[-1]). -/
def forward (rnn : RNNParams) (X : List Mat) (hidden_0 : Option (List Mat)) :
    Option (List Mat × List Mat) :=
  let seq_length := X.length
  let batch_size := ((nth X 0).getD []).length
  let h0 := match hidden_0 with
    | none => defaultHidden0 rnn batch_size
    | some h => h
  match runLoop rnn X h0 seq_length with
  | none => none
  | some hidden_states =>
    if gridFilled hidden_states then
      match lastCells hidden_states, (pyLast hidden_states).bind rowMats with
      | some out, some fin => some (out, fin)
      | _, _ => none
    else none

/-! ### Specification-side definitions

`stepFormula` follows the spec's words for the Step Function: entry (b, h)
of the result is activation(prev[b] . weight_hh[h] + bias_hh[h] + inputs[b]
. weight_ih[h] + bias_ih[h]).  `specGrid` is the recurrence of the spec's
Sequence Driver, defined by structural recursion over (timestep, layer). -/

/-- Bias entry lookup, with the additive zero for an absent bias. -/
def bget (b : Option Vec) (h : ℕ) : ℤ :=
  match b with
  | none => 0
  | some v => (nth v h).getD 0

/-- The spec's description of the Step Function, written entrywise. -/
def stepFormula (act : ℤ → ℤ) (weight_hh : Mat) (bias_hh : Option Vec)
    (weight_ih : Mat) (bias_ih : Option Vec) (prev inp : Mat) : Mat :=
  List.zipWith
    (fun pr ir =>
      (upTo weight_hh.length).map
        (fun h =>
          act (dot pr ((nth weight_hh h).getD []) + bget bias_hh h +
            dot ir ((nth weight_ih h).getD []) + bget bias_ih h)))
    prev inp

/-- The Step Function at layer l, reading that layer's parameters. -/
def stepSpec (rnn : RNNParams) (l : ℕ) (prev inp : Mat) : Mat :=
  stepFormula rnn.activation_func ((rnn.weight_hh l).getD []) (rnn.bias_hh l)
    ((rnn.weight_ih l).getD []) (rnn.bias_ih l) prev inp

/-- One timestep of the recurrence: layer l's state, given all layers' states
at the previous timestep (prev) and this timestep's input xt. -/
def specRow (rnn : RNNParams) (xt : Mat) (prev : ℕ → Mat) : ℕ → Mat
  | 0 => stepSpec rnn 0 (prev 0) xt
  | l + 1 => stepSpec rnn (l + 1) (prev (l + 1)) (specRow rnn xt prev l)

/-- The mathematical hidden-state grid of the spec's recurrence. -/
def specGrid (rnn : RNNParams) (X : List Mat) (h0 : List Mat) : ℕ → ℕ → Mat
  | 0 => specRow rnn ((nth X 0).getD []) (fun j => (nth h0 j).getD [])
  | t + 1 => specRow rnn ((nth X (t + 1)).getD []) (specGrid rnn X h0 t)

/-! ### Shape conformance -/

/-- Boolean shape check: A is an m-by-n rectangular matrix. -/
def shapedMat (A : Mat) (m n : ℕ) : Bool :=
  A.length == m && A.all (fun r => r.length == n)

/-- Shape conformance of a call: the contract between X (seq of B-by-D
matrices), hidden_0 (at least num_layers matrices of shape B-by-H) and the
stored parameters (weights present and rectangular of the contracted
shapes; biases, when present, of length H). -/
def conformant (rnn : RNNParams) (X : List Mat) (h0 : List Mat) (B D : ℕ) : Bool :=
  decide (1 ≤ rnn.num_layers) && decide (1 ≤ rnn.hidden_size) && decide (1 ≤ D) &&
  X.all (fun A => shapedMat A B D) &&
  decide (rnn.num_layers ≤ h0.length) &&
  (upTo rnn.num_layers).all (fun l =>
    shapedMat ((nth h0 l).getD []) B rnn.hidden_size &&
    (match rnn.weight_hh l with
     | some W => shapedMat W rnn.hidden_size rnn.hidden_size
     | none => false) &&
    (match rnn.weight_ih l with
     | some W => shapedMat W rnn.hidden_size (if l == 0 then D else rnn.hidden_size)
     | none => false) &&
    (match rnn.bias_hh l with
     | some v => v.length == rnn.hidden_size
     | none => true) &&
    (match rnn.bias_ih l with
     | some v => v.length == rnn.hidden_size
     | none => true))

/-! ### Lemmas about the list infrastructure -/

theorem nth_eq_none {α : Type _} : ∀ (xs : List α) (i : ℕ), xs.length ≤ i → nth xs i = none
  | [], _, _ => rfl
  | _ :: _, 0, h => absurd h (by simp)
  | _ :: xs, i + 1, h => nth_eq_none xs i (Nat.le_of_succ_le_succ (by simpa using h))

theorem nth_lt {α : Type _} : ∀ (xs : List α) (i : ℕ), i < xs.length → ∃ a, nth xs i = some a
  | a :: _, 0, _ => ⟨a, rfl⟩
  | _ :: xs, i + 1, h => nth_lt xs i (Nat.lt_of_succ_lt_succ (by simpa using h))

theorem nth_getD_of_lt {α : Type _} (xs : List α) (i : ℕ) (d : α) (h : i < xs.length) :
    nth xs i = some ((nth xs i).getD d) := by
  obtain ⟨a, ha⟩ := nth_lt xs i h
  rw [ha]; rfl

theorem lt_length_of_nth {α : Type _} :
    ∀ (xs : List α) (i : ℕ) (a : α), nth xs i = some a → i < xs.length
  | [], _, _, h => by simp [nth] at h
  | _ :: _, 0, _, _ => by simp
  | _ :: xs, i + 1, a, h => Nat.succ_lt_succ (lt_length_of_nth xs i a h)

theorem mem_of_nth {α : Type _} :
    ∀ (xs : List α) (i : ℕ) (a : α), nth xs i = some a → a ∈ xs
  | [], _, _, h => by simp [nth] at h
  | b :: _, 0, a, h => by simp [nth] at h; simp [h]
  | _ :: xs, i + 1, a, h => List.mem_cons_of_mem _ (mem_of_nth xs i a h)

theorem nth_of_mem {α : Type _} :
    ∀ {xs : List α} {a : α}, a ∈ xs → ∃ i, nth xs i = some a := by
  intro xs a h
  induction xs with
  | nil => simp at h
  | cons b xs ih =>
    rcases List.mem_cons.mp h with h | h
    · exact ⟨0, by simp [nth, h]⟩
    · obtain ⟨i, hi⟩ := ih h
      exact ⟨i + 1, by simpa [nth] using hi⟩

theorem nth_ext {α : Type _} :
    ∀ (xs ys : List α), (∀ i, nth xs i = nth ys i) → xs = ys
  | [], [], _ => rfl
  | [], _ :: _, h => by simpa [nth] using h 0
  | _ :: _, [], h => by simpa [nth] using h 0
  | a :: xs, b :: ys, h => by
    have h0 : a = b := by simpa [nth] using h 0
    have htl : xs = ys := nth_ext xs ys (fun i => by simpa [nth] using h (i + 1))
    rw [h0, htl]

theorem nth_map {α β : Type _} (f : α → β) :
    ∀ (xs : List α) (i : ℕ), nth (xs.map f) i = (nth xs i).map f
  | [], _ => rfl
  | _ :: _, 0 => rfl
  | _ :: xs, i + 1 => nth_map f xs i

theorem nth_append_left {α : Type _} :
    ∀ (xs ys : List α) (i : ℕ), i < xs.length → nth (xs ++ ys) i = nth xs i
  | _ :: _, _, 0, _ => rfl
  | _ :: xs, ys, i + 1, h =>
    nth_append_left xs ys i (Nat.lt_of_succ_lt_succ (by simpa using h))

theorem nth_append_right {α : Type _} :
    ∀ (xs ys : List α) (j : ℕ), nth (xs ++ ys) (xs.length + j) = nth ys j
  | [], ys, j => by simp [Nat.zero_add]
  | x :: xs, ys, j => by
    have h : (x :: xs).length + j = (xs.length + j) + 1 := by
      simp [Nat.succ_add]
    rw [h]
    show nth (xs ++ ys) (xs.length + j) = nth ys j
    exact nth_append_right xs ys j

theorem length_upTo : ∀ n : ℕ, (upTo n).length = n
  | 0 => rfl
  | n + 1 => by simp [upTo, length_upTo n]

theorem nth_upTo : ∀ (n i : ℕ), i < n → nth (upTo n) i = some i := by
  intro n
  induction n with
  | zero => intro i h; omega
  | succ n ih =>
    intro i h
    by_cases hi : i < n
    · rw [upTo, nth_append_left _ _ _ (by rw [length_upTo]; exact hi)]
      exact ih i hi
    · have : i = n := by omega
      subst this
      rw [upTo]
      have := nth_append_right (upTo i) [i] 0
      simpa [length_upTo] using this

theorem mem_upTo : ∀ (n i : ℕ), i ∈ upTo n ↔ i < n := by
  intro n
  induction n with
  | zero => simp [upTo]
  | succ n ih => intro i; simp [upTo, ih]; omega

theorem upTo_nodup : ∀ n : ℕ, (upTo n).Nodup := by
  intro n
  induction n with
  | zero => simp [upTo]
  | succ n ih =>
    rw [upTo]
    refine List.Nodup.append ih (List.nodup_singleton n) ?_
    intro a ha hb
    rw [mem_upTo] at ha
    simp at hb
    omega

theorem upTo_succ_cons (n : ℕ) : upTo (n + 1) = 0 :: (upTo n).map (fun i => i + 1) := by
  induction n with
  | zero => rfl
  | succ n ih =>
    have h2 : (upTo (n + 1)).map (fun i => i + 1) = (upTo n).map (fun i => i + 1) ++ [n + 1] := by
      show ((upTo n) ++ [n]).map (fun i => i + 1) = _
      rw [List.map_append]
      rfl
    calc upTo (n + 2) = upTo (n + 1) ++ [n + 1] := rfl
      _ = (0 :: (upTo n).map (fun i => i + 1)) ++ [n + 1] := by rw [ih]
      _ = 0 :: (upTo (n + 1)).map (fun i => i + 1) := by rw [h2]; rfl

theorem upTo_pos_cons (n : ℕ) (h : 1 ≤ n) : ∃ tl, upTo n = 0 :: tl := by
  obtain ⟨m, rfl⟩ : ∃ m, n = m + 1 := ⟨n - 1, by omega⟩
  exact ⟨_, upTo_succ_cons m⟩

theorem nth_replicate {α : Type _} (a : α) :
    ∀ (n i : ℕ), i < n → nth (List.replicate n a) i = some a
  | n + 1, 0, _ => rfl
  | n + 1, i + 1, h =>
    nth_replicate a n i (Nat.lt_of_succ_lt_succ h)

theorem length_setNth {α : Type _} (v : α) :
    ∀ (xs : List α) (i : ℕ), (setNth xs i v).length = xs.length
  | [], _ => rfl
  | _ :: _, 0 => rfl
  | _ :: xs, i + 1 => by simp [setNth, length_setNth v xs i]

theorem nth_setNth_eq {α : Type _} (v : α) :
    ∀ (xs : List α) (i : ℕ), i < xs.length → nth (setNth xs i v) i = some v
  | _ :: _, 0, _ => rfl
  | _ :: xs, i + 1, h =>
    nth_setNth_eq v xs i (Nat.lt_of_succ_lt_succ (by simpa using h))

theorem nth_setNth_ne {α : Type _} (v : α) :
    ∀ (xs : List α) (i j : ℕ), i ≠ j → nth (setNth xs i v) j = nth xs j
  | [], _, _, _ => rfl
  | _ :: _, 0, 0, h => absurd rfl h
  | _ :: _, 0, _ + 1, _ => rfl
  | _ :: _, _ + 1, 0, _ => rfl
  | _ :: xs, i + 1, j + 1, h =>
    nth_setNth_ne v xs i j (fun hij => h (by rw [hij]))

theorem nth_zipWith {α β γ : Type _} (f : α → β → γ) :
    ∀ (xs : List α) (ys : List β) (i : ℕ),
      nth (List.zipWith f xs ys) i =
        (nth xs i).bind (fun a => (nth ys i).map (f a))
  | [], [], _ => rfl
  | [], _ :: _, _ => rfl
  | _ :: _, [], 0 => rfl
  | x :: xs, [], i + 1 => by
    show (none : Option γ) = (nth xs i).bind (fun a => (nth ([] : List β) (i + 1)).map (f a))
    cases nth xs i <;> rfl
  | _ :: _, _ :: _, 0 => rfl
  | _ :: xs, _ :: ys, i + 1 => nth_zipWith f xs ys i

theorem mem_zipWith {α β γ : Type _} (f : α → β → γ) :
    ∀ (xs : List α) (ys : List β) (c : γ), c ∈ List.zipWith f xs ys →
      ∃ a b, a ∈ xs ∧ b ∈ ys ∧ c = f a b
  | x :: xs, y :: ys, c, h => by
    rcases List.mem_cons.mp h with h | h
    · exact ⟨x, y, List.mem_cons_self x xs, List.mem_cons_self y ys, h⟩
    · obtain ⟨a, b, ha, hb, hc⟩ := mem_zipWith f xs ys c h
      exact ⟨a, b, List.mem_cons_of_mem x ha, List.mem_cons_of_mem y hb, hc⟩

theorem le_length_of_nth_none {α : Type _} :
    ∀ (xs : List α) (i : ℕ), nth xs i = none → xs.length ≤ i
  | [], _, _ => Nat.zero_le _
  | _ :: _, 0, h => by simp [nth] at h
  | _ :: xs, i + 1, h => Nat.succ_le_succ (le_length_of_nth_none xs i h)

theorem nth_map_some {α β : Type _} (f : α → β) (xs : List α) (i : ℕ) (a : α)
    (h : nth xs i = some a) : nth (xs.map f) i = some (f a) := by
  rw [nth_map, h]
  rfl

theorem nth_upTo_map {α : Type _} (f : ℕ → α) (n i : ℕ) (h : i < n) :
    nth ((upTo n).map f) i = some (f i) := by
  rw [nth_map, nth_upTo n i h]
  rfl

theorem nth_map_none {α β : Type _} (f : α → β) (xs : List α) (i : ℕ)
    (h : nth xs i = none) : nth (xs.map f) i = none := by
  rw [nth_map, h]
  rfl

theorem zipWith_self {α β : Type _} (f : α → α → β) :
    ∀ xs : List α, List.zipWith f xs xs = xs.map (fun a => f a a)
  | [] => rfl
  | x :: xs => by simp [zipWith_self f xs]

theorem map_eq_upTo_map {α : Type _} (f : Vec → α) (A : Mat) :
    A.map f = (upTo A.length).map (fun i => f ((nth A i).getD [])) := by
  apply nth_ext
  intro i
  rw [nth_map, nth_map]
  by_cases h : i < A.length
  · rw [nth_upTo _ _ h]
    rw [nth_getD_of_lt A i [] h]
    rfl
  · rw [nth_eq_none A i (by omega), nth_eq_none (upTo A.length) i (by rw [length_upTo]; omega)]
    rfl

theorem upTo_map_nth (r : Vec) :
    (upTo r.length).map (fun j => (nth r j).getD 0) = r := by
  apply nth_ext
  intro i
  rw [nth_map]
  by_cases h : i < r.length
  · rw [nth_upTo _ _ h, nth_getD_of_lt r i 0 h]
    rfl
  · rw [nth_eq_none r i (by omega), nth_eq_none (upTo r.length) i (by rw [length_upTo]; omega)]
    rfl

theorem upTo_map_congr {α : Type _} (n : ℕ) (f g : ℕ → α)
    (h : ∀ i < n, f i = g i) : (upTo n).map f = (upTo n).map g := by
  apply List.map_congr_left
  intro i hi
  exact h i ((mem_upTo n i).mp hi)

/-! ### Lemmas about the tensor operations -/

theorem some_bind {α β : Type _} (a : α) (f : α → Option β) : (some a).bind f = f a := rfl

theorem shapedMat_iff (A : Mat) (m n : ℕ) :
    shapedMat A m n = true ↔ A.length = m ∧ ∀ r ∈ A, r.length = n := by
  simp [shapedMat, List.all_eq_true]

theorem length_tT (A : Mat) : (tT A).length = ((nth A 0).getD []).length := by
  simp [tT, length_upTo]

theorem nth0_len_of_rect {A : Mat} {n d : ℕ} (hn : A.length = n) (h1 : 1 ≤ n)
    (hrect : ∀ r ∈ A, r.length = d) : ((nth A 0).getD []).length = d := by
  obtain ⟨r, hr⟩ := nth_lt A 0 (by omega)
  rw [hr]
  exact hrect r (mem_of_nth A 0 r hr)

theorem tT_tT (W : Mat) (n d : ℕ) (hn : W.length = n) (h1 : 1 ≤ n) (hd1 : 1 ≤ d)
    (hrect : ∀ r ∈ W, r.length = d) : tT (tT W) = W := by
  have hd0 : ((nth W 0).getD []).length = d := nth0_len_of_rect hn h1 hrect
  have hU : tT W = (upTo d).map (fun j => W.map (fun r => (nth r j).getD 0)) := by
    rw [tT, hd0]
  have hU0 : (nth (tT W) 0).getD [] = W.map (fun r => (nth r 0).getD 0) := by
    rw [hU, nth_map, nth_upTo d 0 hd1]
    rfl
  have hUlen : ((nth (tT W) 0).getD []).length = n := by
    rw [hU0, List.length_map, hn]
  have hT2 : tT (tT W) =
      (upTo n).map (fun i => (tT W).map (fun c => (nth c i).getD 0)) := by
    rw [tT, hUlen]
  rw [hT2]
  apply nth_ext
  intro i
  rw [nth_map]
  by_cases hi : i < n
  · rw [nth_upTo n i hi]
    obtain ⟨Wi, hWi⟩ := nth_lt W i (by omega)
    have hWid : Wi.length = d := hrect Wi (mem_of_nth W i Wi hWi)
    rw [hWi]
    show some ((tT W).map (fun c => (nth c i).getD 0)) = some Wi
    congr 1
    rw [hU, List.map_map]
    calc ((upTo d).map
            ((fun c => (nth c i).getD 0) ∘ fun j => W.map (fun r => (nth r j).getD 0)))
        = (upTo d).map (fun j => (nth Wi j).getD 0) := by
          apply List.map_congr_left
          intro j _
          show (nth (W.map (fun r => (nth r j).getD 0)) i).getD 0 = (nth Wi j).getD 0
          rw [nth_map, hWi]
          rfl
      _ = Wi := by rw [← hWid]; exact upTo_map_nth Wi
  · rw [nth_eq_none (upTo n) i (by rw [length_upTo]; omega),
      nth_eq_none W i (by omega)]
    rfl

theorem matmul_tT (A W : Mat) (n d : ℕ) (hn : W.length = n) (h1 : 1 ≤ n) (hd1 : 1 ≤ d)
    (hrect : ∀ r ∈ W, r.length = d) (hA : ∀ r ∈ A, r.length = d) :
    matmul A (tT W) = some (A.map (fun r => W.map (fun w => dot r w))) := by
  have hlen : (tT W).length = d := by
    rw [length_tT]
    exact nth0_len_of_rect hn h1 hrect
  have hcond : A.all (fun r => r.length == (tT W).length) = true := by
    rw [List.all_eq_true]
    intro r hr
    simp [hlen, hA r hr]
  rw [matmul, if_pos hcond, tT_tT W n d hn h1 hd1 hrect]

theorem matmul_tT_fail (A W : Mat) (n d : ℕ) (hn : W.length = n) (h1 : 1 ≤ n)
    (hrect : ∀ r ∈ W, r.length = d) (r : Vec) (hr : r ∈ A) (hrd : r.length ≠ d) :
    matmul A (tT W) = none := by
  have hlen : (tT W).length = d := by
    rw [length_tT]
    exact nth0_len_of_rect hn h1 hrect
  have hcond : A.all (fun x => x.length == (tT W).length) = false := by
    cases hall : A.all (fun x => x.length == (tT W).length) with
    | false => rfl
    | true =>
      rw [List.all_eq_true] at hall
      have := hall r hr
      rw [hlen] at this
      simp at this
      exact absurd this hrd
  rw [matmul, if_neg (by rw [hcond]; exact Bool.false_ne_true)]

theorem addBias_eq (A : Mat) (b : Option Vec) (H : ℕ)
    (hA : ∀ r ∈ A, r.length = H) (hb : ∀ v, b = some v → v.length = H) :
    addBias A b =
      some (A.map (fun r => (upTo H).map (fun h => (nth r h).getD 0 + bget b h))) := by
  cases b with
  | none =>
    show some A = _
    congr 1
    conv_lhs => rw [← List.map_id A]
    apply List.map_congr_left
    intro r hr
    show r = (upTo H).map (fun h => (nth r h).getD 0 + bget none h)
    have h0 : ∀ i < H, (nth r i).getD 0 + bget (none : Option Vec) i = (nth r i).getD 0 := by
      intro i _
      show (nth r i).getD 0 + 0 = (nth r i).getD 0
      exact add_zero _
    rw [upTo_map_congr H _ _ h0, ← hA r hr]
    exact (upTo_map_nth r).symm
  | some v =>
    have hv : v.length = H := hb v rfl
    have hcond : A.all (fun r => r.length == v.length) = true := by
      rw [List.all_eq_true]
      intro r hr
      simp [hA r hr, hv]
    rw [addBias, if_pos hcond]
    congr 1
    apply List.map_congr_left
    intro r hr
    show List.zipWith (fun a c => a + c) r v =
      (upTo H).map (fun h => (nth r h).getD 0 + bget (some v) h)
    apply nth_ext
    intro i
    rw [nth_zipWith, nth_map]
    by_cases hi : i < H
    · rw [nth_upTo H i hi]
      obtain ⟨a, ha⟩ := nth_lt r i (by rw [hA r hr]; exact hi)
      obtain ⟨c, hc⟩ := nth_lt v i (by rw [hv]; exact hi)
      rw [ha, hc]
      show some (a + c) = some ((nth r i).getD 0 + (nth v i).getD 0)
      rw [ha, hc]
      rfl
    · rw [nth_eq_none r i (by rw [hA r hr]; omega),
        nth_eq_none (upTo H) i (by rw [length_upTo]; omega)]
      rfl

theorem addMat_eq (A C : Mat) (hlen : A.length = C.length)
    (hrows : ∀ i, ((nth A i).getD []).length = ((nth C i).getD []).length) :
    addMat A C =
      some (List.zipWith (fun r s => List.zipWith (fun a c => a + c) r s) A C) := by
  have h1 : (A.length == C.length) = true := by simp [hlen]
  have h2 : (List.zipWith (fun r s => r.length == s.length) A C).all id = true := by
    rw [List.all_eq_true]
    intro b hb
    obtain ⟨i, hi⟩ := nth_of_mem hb
    rw [nth_zipWith] at hi
    cases hA : nth A i with
    | none => rw [hA] at hi; simp at hi
    | some r =>
      cases hC : nth C i with
      | none => rw [hA, hC] at hi; simp at hi
      | some s =>
        rw [hA, hC] at hi
        simp only [some_bind, Option.map_some'] at hi
        have hlr : r.length = s.length := by
          have := hrows i
          rw [hA, hC] at this
          exact this
        have hb' : b = (r.length == s.length) := by
          injection hi with h
          exact h.symm
        rw [hb', hlr]
        simp
  rw [addMat, if_pos (by rw [h1, h2]; rfl)]

/-! ### The Step Function implements the spec formula -/

theorem compute_row_eq (act : ℤ → ℤ) (Whh Wih : Mat) (bhh bih : Option Vec) (H : ℕ)
    (hWhh : Whh.length = H) (hWih : Wih.length = H) (pr ir : Vec) :
    List.map act ((upTo H).map (fun h =>
      (nth (List.zipWith (fun a c => a + c)
        ((upTo H).map
          (fun h2 => (nth (Whh.map (fun w => dot pr w)) h2).getD 0 + bget bhh h2))
        (Wih.map (fun w => dot ir w))) h).getD 0 + bget bih h))
    = (upTo H).map (fun h => act (dot pr ((nth Whh h).getD []) + bget bhh h +
        dot ir ((nth Wih h).getD []) + bget bih h)) := by
  rw [List.map_map]
  apply upTo_map_congr
  intro h hh
  simp only [Function.comp_apply]
  obtain ⟨wh, hwh⟩ := nth_lt Whh h (by omega)
  obtain ⟨wi, hwi⟩ := nth_lt Wih h (by omega)
  rw [nth_zipWith,
    nth_upTo_map (fun h2 => (nth (Whh.map (fun w => dot pr w)) h2).getD 0 + bget bhh h2) H h hh,
    nth_map_some (fun w => dot ir w) Wih h wi hwi,
    nth_map_some (fun w => dot pr w) Whh h wh hwh,
    hwh, hwi]
  rfl

theorem compute_eq (act : ℤ → ℤ) (Whh Wih prev inp : Mat) (bhh bih : Option Vec) (H D : ℕ)
    (hH : 1 ≤ H) (hD : 1 ≤ D)
    (hWhh : Whh.length = H) (hWhhr : ∀ r ∈ Whh, r.length = H)
    (hWih : Wih.length = H) (hWihr : ∀ r ∈ Wih, r.length = D)
    (hlen : prev.length = inp.length)
    (hprevr : ∀ r ∈ prev, r.length = H)
    (hinpr : ∀ r ∈ inp, r.length = D)
    (hbhh : ∀ v, bhh = some v → v.length = H)
    (hbih : ∀ v, bih = some v → v.length = H) :
    compute_new_hidden_state prev inp Whh bhh Wih bih act =
      some (stepFormula act Whh bhh Wih bih prev inp) := by
  have hB1rows : ∀ r ∈ (prev.map (fun r => Whh.map (fun w => dot r w))).map
      (fun r => (upTo H).map (fun h => (nth r h).getD 0 + bget bhh h)), r.length = H := by
    intro r hr
    obtain ⟨q, _, rfl⟩ := List.mem_map.mp hr
    simp [length_upTo]
  have hC1rows : ∀ r ∈ inp.map (fun r => Wih.map (fun w => dot r w)), r.length = H := by
    intro r hr
    obtain ⟨q, _, rfl⟩ := List.mem_map.mp hr
    simp [hWih]
  rw [compute_new_hidden_state,
    matmul_tT prev Whh H H hWhh hH hH hWhhr hprevr, some_bind,
    addBias_eq (prev.map (fun r => Whh.map (fun w => dot r w))) bhh H
      (by intro r hr
          obtain ⟨p, _, rfl⟩ := List.mem_map.mp hr
          simp [hWhh]) hbhh, some_bind,
    matmul_tT inp Wih H D hWih hH hD hWihr hinpr, some_bind,
    addMat_eq
      ((prev.map (fun r => Whh.map (fun w => dot r w))).map
        (fun r => (upTo H).map (fun h => (nth r h).getD 0 + bget bhh h)))
      (inp.map (fun r => Wih.map (fun w => dot r w)))
      (by simp [hlen])
      (by intro i
          by_cases hi : i < prev.length
          · obtain ⟨p, hp⟩ := nth_lt prev i hi
            obtain ⟨q, hq⟩ := nth_lt inp i (by omega)
            rw [nth_map_some _ _ _ _ (nth_map_some (fun r => Whh.map (fun w => dot r w)) prev i p hp),
              nth_map_some (fun r => Wih.map (fun w => dot r w)) inp i q hq]
            simp [length_upTo, hWih]
          · rw [nth_eq_none _ i (by simp; omega),
              nth_eq_none _ i (by rw [List.length_map, ← hlen]; omega)]),
    some_bind,
    addBias_eq
      (List.zipWith (fun r s => List.zipWith (fun a c => a + c) r s)
        ((prev.map (fun r => Whh.map (fun w => dot r w))).map
          (fun r => (upTo H).map (fun h => (nth r h).getD 0 + bget bhh h)))
        (inp.map (fun r => Wih.map (fun w => dot r w))))
      bih H
      (by intro r hr
          obtain ⟨a, b, ha, hb, rfl⟩ := mem_zipWith _ _ _ _ hr
          rw [List.length_zipWith, hB1rows a ha, hC1rows b hb]
          simp) hbih, some_bind]
  congr 1
  rw [mapMat, stepFormula]
  apply nth_ext
  intro b
  rw [nth_map, nth_map, nth_zipWith, nth_zipWith]
  cases hp : nth prev b with
  | none =>
    have h1 : nth (prev.map (fun r => Whh.map (fun w => dot r w))) b = none :=
      nth_map_none _ _ _ hp
    have h2 := nth_map_none
      (fun r => (upTo H).map (fun h => (nth r h).getD 0 + bget bhh h)) _ b h1
    rw [h2]
    rfl
  | some p =>
    obtain ⟨q, hq⟩ := nth_lt inp b (by rw [← hlen]; exact lt_length_of_nth prev b p hp)
    rw [hq,
      nth_map_some _ _ _ _ (nth_map_some (fun r => Whh.map (fun w => dot r w)) prev b p hp),
      nth_map_some (fun r => Wih.map (fun w => dot r w)) inp b q hq]
    show some _ = some _
    congr 1
    rw [hWhh]
    exact compute_row_eq act Whh Wih bhh bih H hWhh hWih p q

/-! ### Conformance extraction and the recurrence of the spec grid -/

theorem conformant_props (rnn : RNNParams) (X : List Mat) (h0 : List Mat) (B D : ℕ)
    (hc : conformant rnn X h0 B D = true) :
    (1 ≤ rnn.num_layers) ∧ (1 ≤ rnn.hidden_size) ∧ (1 ≤ D) ∧
    (∀ A ∈ X, A.length = B ∧ ∀ r ∈ A, r.length = D) ∧
    (rnn.num_layers ≤ h0.length) ∧
    (∀ l, l < rnn.num_layers →
      ((nth h0 l).getD []).length = B ∧
      (∀ r ∈ (nth h0 l).getD [], r.length = rnn.hidden_size) ∧
      rnn.weight_hh l = some ((rnn.weight_hh l).getD []) ∧
      ((rnn.weight_hh l).getD []).length = rnn.hidden_size ∧
      (∀ r ∈ (rnn.weight_hh l).getD [], r.length = rnn.hidden_size) ∧
      rnn.weight_ih l = some ((rnn.weight_ih l).getD []) ∧
      ((rnn.weight_ih l).getD []).length = rnn.hidden_size ∧
      (∀ r ∈ (rnn.weight_ih l).getD [], r.length = (if l = 0 then D else rnn.hidden_size)) ∧
      (∀ v, rnn.bias_hh l = some v → v.length = rnn.hidden_size) ∧
      (∀ v, rnn.bias_ih l = some v → v.length = rnn.hidden_size)) := by
  rw [conformant] at hc
  simp only [Bool.and_eq_true, List.all_eq_true, decide_eq_true_eq] at hc
  obtain ⟨⟨⟨⟨⟨hL, hH⟩, hD⟩, hX⟩, hh0len⟩, hlayers⟩ := hc
  refine ⟨hL, hH, hD, ?_, hh0len, ?_⟩
  · intro A hA
    have := hX A hA
    rw [shapedMat_iff] at this
    exact this
  · intro l hl
    have hlay := hlayers l ((mem_upTo _ _).mpr hl)
    simp only [Bool.and_eq_true] at hlay
    obtain ⟨⟨⟨⟨hh0s, hwhh⟩, hwih⟩, hbhh⟩, hbih⟩ := hlay
    rw [shapedMat_iff] at hh0s
    obtain ⟨W, hW⟩ : ∃ W, rnn.weight_hh l = some W := by
      cases hWc : rnn.weight_hh l with
      | none => rw [hWc] at hwhh; exact absurd hwhh (by simp)
      | some W => exact ⟨W, rfl⟩
    rw [hW, shapedMat_iff] at hwhh
    obtain ⟨W2, hW2⟩ : ∃ W2, rnn.weight_ih l = some W2 := by
      cases hWc : rnn.weight_ih l with
      | none => rw [hWc] at hwih; exact absurd hwih (by simp)
      | some W2 => exact ⟨W2, rfl⟩
    rw [hW2, shapedMat_iff] at hwih
    refine ⟨hh0s.1, hh0s.2, ?_, ?_, ?_, ?_, ?_, ?_, ?_, ?_⟩
    · simp [hW]
    · rw [hW]
      exact hwhh.1
    · rw [hW]
      exact hwhh.2
    · simp [hW2]
    · rw [hW2]
      exact hwih.1
    · rw [hW2]
      intro r hr
      have := hwih.2 r hr
      by_cases hl0 : l = 0
      · subst hl0
        simpa using this
      · have hbeq : (l == 0) = false := by simp [hl0]
        rw [hbeq] at this
        simpa [hl0] using this
    · intro v hv
      rw [hv] at hbhh
      simpa using hbhh
    · intro v hv
      rw [hv] at hbih
      simpa using hbih

theorem specGrid_rec (rnn : RNNParams) (X : List Mat) (h0 : List Mat) (t l : ℕ) :
    specGrid rnn X h0 t l =
      stepSpec rnn l
        (if t = 0 then (nth h0 l).getD [] else specGrid rnn X h0 (t - 1) l)
        (if l = 0 then (nth X t).getD [] else specGrid rnn X h0 t (l - 1)) := by
  cases t with
  | zero =>
    cases l with
    | zero => rfl
    | succ l => rfl
  | succ t =>
    cases l with
    | zero => rfl
    | succ l => rfl

/-! ### Shapes of the spec grid -/

theorem stepFormula_len (act : ℤ → ℤ) (Whh : Mat) (bhh : Option Vec) (Wih : Mat)
    (bih : Option Vec) (prev inp : Mat) :
    (stepFormula act Whh bhh Wih bih prev inp).length = min prev.length inp.length := by
  simp [stepFormula, List.length_zipWith]

theorem stepFormula_rows (act : ℤ → ℤ) (Whh : Mat) (bhh : Option Vec) (Wih : Mat)
    (bih : Option Vec) (prev inp : Mat) :
    ∀ r ∈ stepFormula act Whh bhh Wih bih prev inp, r.length = Whh.length := by
  intro r hr
  obtain ⟨a, b, _, _, rfl⟩ := mem_zipWith _ _ _ _ hr
  simp [length_upTo]

theorem specRow_shape (rnn : RNNParams) (xt : Mat) (prev : ℕ → Mat) (Bsz : ℕ)
    (hxt : xt.length = Bsz) (hprev : ∀ j, j < rnn.num_layers → (prev j).length = Bsz)
    (hW : ∀ j, j < rnn.num_layers → ((rnn.weight_hh j).getD []).length = rnn.hidden_size) :
    ∀ l, l < rnn.num_layers →
      (specRow rnn xt prev l).length = Bsz ∧
      ∀ r ∈ specRow rnn xt prev l, r.length = rnn.hidden_size := by
  intro l
  induction l with
  | zero =>
    intro hl
    constructor
    · rw [specRow, stepSpec, stepFormula_len, hprev 0 hl, hxt]
      simp
    · intro r hr
      rw [specRow, stepSpec] at hr
      have := stepFormula_rows _ _ _ _ _ _ _ r hr
      rw [this, hW 0 hl]
  | succ l ih =>
    intro hl
    have hl' : l < rnn.num_layers := by omega
    obtain ⟨ihlen, _⟩ := ih hl'
    constructor
    · rw [specRow, stepSpec, stepFormula_len, hprev (l + 1) hl, ihlen]
      simp
    · intro r hr
      rw [specRow, stepSpec] at hr
      have := stepFormula_rows _ _ _ _ _ _ _ r hr
      rw [this, hW (l + 1) hl]

theorem specGrid_shape (rnn : RNNParams) (X : List Mat) (h0 : List Mat) (Bsz : ℕ)
    (hX : ∀ t, t < X.length → ((nth X t).getD []).length = Bsz)
    (hh0 : ∀ j, j < rnn.num_layers → ((nth h0 j).getD []).length = Bsz)
    (hW : ∀ j, j < rnn.num_layers → ((rnn.weight_hh j).getD []).length = rnn.hidden_size) :
    ∀ t, t < X.length → ∀ l, l < rnn.num_layers →
      (specGrid rnn X h0 t l).length = Bsz ∧
      ∀ r ∈ specGrid rnn X h0 t l, r.length = rnn.hidden_size := by
  intro t
  induction t with
  | zero =>
    intro ht l hl
    exact specRow_shape rnn ((nth X 0).getD []) _ Bsz (hX 0 ht) hh0 hW l hl
  | succ t ih =>
    intro ht l hl
    exact specRow_shape rnn ((nth X (t + 1)).getD []) (specGrid rnn X h0 t) Bsz
      (hX (t + 1) ht) (fun j hj => (ih (by omega) j hj).1) hW l hl

/-! ### The loop invariant -/

/-- Read one cell of the grid (out-of-range reads collapse to the sentinel). -/
def getCell (g : Grid) (i l : ℕ) : Option Mat :=
  (nth ((nth g i).getD []) l).getD none

/-- The invariant after the double loop has processed all cells strictly
before (t, k) in time-major order: processed cells hold the spec value,
the rest still hold the sentinel. -/
def gridInv (rnn : RNNParams) (X : List Mat) (h0 : List Mat) (t k : ℕ) (g : Grid) : Prop :=
  g.length = X.length ∧
  (∀ i, i < X.length → ((nth g i).getD []).length = rnn.num_layers) ∧
  (∀ i l, i < X.length → l < rnn.num_layers →
    getCell g i l =
      if i < t ∨ (i = t ∧ l < k) then some (specGrid rnn X h0 i l) else none)

theorem getD_none_some {α : Type _} (o : Option (Option α)) (x : α)
    (h : o.getD none = some x) : o = some (some x) := by
  cases o with
  | none => simp at h
  | some c => simpa using h

theorem gridInv_init (rnn : RNNParams) (X : List Mat) (h0 : List Mat) :
    gridInv rnn X h0 0 0 (initGrid X.length rnn.num_layers) := by
  refine ⟨by simp [initGrid], ?_, ?_⟩
  · intro i hi
    rw [initGrid, nth_replicate _ _ _ hi]
    simp
  · intro i l hi hl
    rw [getCell, initGrid, nth_replicate _ _ _ hi]
    show (nth (List.replicate rnn.num_layers (none : Option Mat)) l).getD none = _
    rw [nth_replicate _ _ _ hl]
    simp

theorem forLoop_append {σ : Type _} (f : σ → ℕ → Option σ) :
    ∀ (l1 l2 : List ℕ) (s : σ),
      forLoop f (l1 ++ l2) s = (forLoop f l1 s).bind (forLoop f l2)
  | [], l2, s => rfl
  | i :: l1, l2, s => by
    show (f s i).bind (forLoop f (l1 ++ l2)) = ((f s i).bind (forLoop f l1)).bind (forLoop f l2)
    cases f s i with
    | none => rfl
    | some s2 => exact forLoop_append f l1 l2 s2

theorem getCell_set_self (g : Grid) (t k : ℕ) (v : Mat)
    (ht : t < g.length) (hk : k < ((nth g t).getD []).length) :
    getCell (setNth g t (setNth ((nth g t).getD []) k (some v))) t k = some v := by
  rw [getCell, nth_setNth_eq _ g t ht]
  show (nth (setNth ((nth g t).getD []) k (some v)) k).getD none = some v
  rw [nth_setNth_eq _ _ k hk]
  rfl

theorem getCell_set_other (g : Grid) (t k : ℕ) (v : Mat) (i l : ℕ)
    (ht : t < g.length) (h : ¬(i = t ∧ l = k)) :
    getCell (setNth g t (setNth ((nth g t).getD []) k (some v))) i l = getCell g i l := by
  by_cases hit : i = t
  · subst hit
    have hlk : l ≠ k := fun hlk => h ⟨rfl, hlk⟩
    rw [getCell, nth_setNth_eq _ g i ht]
    show (nth (setNth ((nth g i).getD []) k (some v)) l).getD none = _
    rw [nth_setNth_ne _ _ k l (fun hkl => hlk hkl.symm)]
    rfl
  · rw [getCell, nth_setNth_ne _ g t i (fun hti => hit hti.symm)]
    rfl

theorem gridInv_roll (rnn : RNNParams) (X : List Mat) (h0 : List Mat) (t : ℕ) (g : Grid)
    (hg : gridInv rnn X h0 t rnn.num_layers g) : gridInv rnn X h0 (t + 1) 0 g := by
  obtain ⟨h1, h2, h3⟩ := hg
  refine ⟨h1, h2, ?_⟩
  intro i l hi hl
  rw [h3 i l hi hl]
  by_cases hcond : i < t ∨ (i = t ∧ l < rnn.num_layers)
  · rw [if_pos hcond, if_pos (by omega)]
  · rw [if_neg hcond, if_neg (by omega)]

/-! ### One loop iteration computes the spec cell -/

theorem stepCell_spec (rnn : RNNParams) (X : List Mat) (h0 : List Mat) (B D : ℕ)
    (hc : conformant rnn X h0 B D = true) (t k : ℕ)
    (ht : t < X.length) (hk : k < rnn.num_layers) (g : Grid)
    (hinv : gridInv rnn X h0 t k g) :
    stepCell rnn X h0 g t k =
      some (setNth g t (setNth ((nth g t).getD []) k (some (specGrid rnn X h0 t k)))) ∧
    gridInv rnn X h0 t (k + 1)
      (setNth g t (setNth ((nth g t).getD []) k (some (specGrid rnn X h0 t k)))) := by
  obtain ⟨hL, hH, hD, hX, hh0len, hlay⟩ := conformant_props rnn X h0 B D hc
  obtain ⟨hglen, hrow, hcells⟩ := hinv
  have hXt : ∀ i, i < X.length →
      ((nth X i).getD []).length = B ∧ ∀ r ∈ (nth X i).getD [], r.length = D := by
    intro i hi
    obtain ⟨A, hA⟩ := nth_lt X i hi
    rw [hA]
    exact hX A (mem_of_nth X i A hA)
  have hW : ∀ j, j < rnn.num_layers →
      ((rnn.weight_hh j).getD []).length = rnn.hidden_size :=
    fun j hj => ((hlay j hj).2.2.2.1)
  have hgs := specGrid_shape rnn X h0 B (fun i hi => (hXt i hi).1)
      (fun j hj => (hlay j hj).1) hW
  obtain ⟨hh0B, hh0H, hWhhsome, hWhhlen, hWhhrows, hWihsome, hWihlen, hWihrows, hbhh, hbih⟩ :=
    hlay k hk
  have hPrevRow : (if t = 0 then some (h0.map some) else nth g (t - 1)) =
      some (if t = 0 then h0.map some else (nth g (t - 1)).getD []) := by
    cases t with
    | zero => simp
    | succ s =>
      rw [if_neg (Nat.succ_ne_zero s), if_neg (Nat.succ_ne_zero s)]
      exact nth_getD_of_lt g s [] (by rw [hglen]; omega)
  have hPCell : nth (if t = 0 then h0.map some else (nth g (t - 1)).getD []) k =
      some (some (if t = 0 then (nth h0 k).getD [] else specGrid rnn X h0 (t - 1) k)) := by
    cases t with
    | zero =>
      rw [if_pos rfl, if_pos rfl]
      obtain ⟨hk0v, hk0⟩ := nth_lt h0 k (by omega)
      rw [nth_map_some some h0 k _ hk0, hk0]
      rfl
    | succ s =>
      rw [if_neg (Nat.succ_ne_zero s), if_neg (Nat.succ_ne_zero s)]
      apply getD_none_some
      show getCell g s k = _
      rw [hcells s k (by omega) hk, if_pos (by omega)]
      rfl
  have hInp : (if k = 0 then nth X t
      else (nth g t).bind fun row => (nth row (k - 1)).bind id) =
      some (if k = 0 then (nth X t).getD [] else specGrid rnn X h0 t (k - 1)) := by
    cases k with
    | zero =>
      rw [if_pos rfl, if_pos rfl]
      exact nth_getD_of_lt X t [] ht
    | succ s =>
      rw [if_neg (Nat.succ_ne_zero s), if_neg (Nat.succ_ne_zero s)]
      rw [nth_getD_of_lt g t [] (by rw [hglen]; omega), some_bind]
      have hcell : nth ((nth g t).getD []) s = some (some (specGrid rnn X h0 t s)) := by
        apply getD_none_some
        show getCell g t s = _
        rw [hcells t s ht (by omega), if_pos (by omega)]
      show (nth ((nth g t).getD []) s).bind id = some (specGrid rnn X h0 t s)
      rw [hcell]
      rfl
  have hPHlen : (if t = 0 then (nth h0 k).getD [] else specGrid rnn X h0 (t - 1) k).length
      = B := by
    cases t with
    | zero => simpa using hh0B
    | succ s => simpa using (hgs s (by omega) k hk).1
  have hPHrows : ∀ r ∈ (if t = 0 then (nth h0 k).getD [] else specGrid rnn X h0 (t - 1) k),
      r.length = rnn.hidden_size := by
    cases t with
    | zero => simpa using hh0H
    | succ s => simpa using (hgs s (by omega) k hk).2
  have hINPlen : (if k = 0 then (nth X t).getD [] else specGrid rnn X h0 t (k - 1)).length
      = B := by
    cases k with
    | zero => simpa using (hXt t ht).1
    | succ s => simpa using (hgs t ht s (by omega)).1
  have hINProws : ∀ r ∈ (if k = 0 then (nth X t).getD [] else specGrid rnn X h0 t (k - 1)),
      r.length = (if k = 0 then D else rnn.hidden_size) := by
    cases k with
    | zero => simpa using (hXt t ht).2
    | succ s => simpa using (hgs t ht s (by omega)).2
  have hcompute : compute_new_hidden_state
      (if t = 0 then (nth h0 k).getD [] else specGrid rnn X h0 (t - 1) k)
      (if k = 0 then (nth X t).getD [] else specGrid rnn X h0 t (k - 1))
      ((rnn.weight_hh k).getD []) (rnn.bias_hh k) ((rnn.weight_ih k).getD [])
      (rnn.bias_ih k) rnn.activation_func =
      some (specGrid rnn X h0 t k) := by
    rw [compute_eq rnn.activation_func ((rnn.weight_hh k).getD []) ((rnn.weight_ih k).getD [])
      _ _ (rnn.bias_hh k) (rnn.bias_ih k) rnn.hidden_size (if k = 0 then D else rnn.hidden_size)
      hH (by cases k with | zero => simpa using hD | succ s => simpa using hH)
      hWhhlen hWhhrows hWihlen hWihrows (by rw [hPHlen, hINPlen]) hPHrows hINProws hbhh hbih,
      specGrid_rec rnn X h0 t k]
    rfl
  have htg : t < g.length := by rw [hglen]; exact ht
  have hkrow : k < ((nth g t).getD []).length := by rw [hrow t ht]; exact hk
  have hstep : stepCell rnn X h0 g t k =
      some (setNth g t (setNth ((nth g t).getD []) k (some (specGrid rnn X h0 t k)))) := by
    simp only [stepCell]
    rw [hPrevRow]
    simp only [some_bind]
    rw [hPCell]
    simp only [some_bind]
    rw [hInp]
    simp only [some_bind]
    rw [hWhhsome]
    simp only [some_bind]
    rw [hWihsome]
    simp only [some_bind]
    rw [hcompute]
    simp only [some_bind]
  refine ⟨hstep, by rw [length_setNth]; exact hglen, ?_, ?_⟩
  · intro i hi
    by_cases hit : i = t
    · subst hit
      rw [nth_setNth_eq _ g i htg]
      show (setNth ((nth g i).getD []) k (some (specGrid rnn X h0 i k))).length = _
      rw [length_setNth]
      exact hrow i hi
    · rw [nth_setNth_ne _ g t i (fun h => hit h.symm)]
      exact hrow i hi
  · intro i l hi hl
    by_cases hitk : i = t ∧ l = k
    · obtain ⟨rfl, rfl⟩ := hitk
      rw [getCell_set_self g i l _ htg hkrow, if_pos (by omega)]
    · rw [getCell_set_other g t k _ i l htg hitk, hcells i l hi hl]
      by_cases hcond : i < t ∨ (i = t ∧ l < k)
      · rw [if_pos hcond, if_pos (by omega)]
      · rw [if_neg hcond, if_neg (by omega)]

/-! ### The double loop fills the grid with the spec values -/

theorem innerLoop_sound (rnn : RNNParams) (X : List Mat) (h0 : List Mat) (B D : ℕ)
    (hc : conformant rnn X h0 B D = true) (t : ℕ) (ht : t < X.length) :
    ∀ k, k ≤ rnn.num_layers → ∀ g, gridInv rnn X h0 t 0 g →
      ∃ g2, forLoop (fun gg layer => stepCell rnn X h0 gg t layer) (upTo k) g = some g2 ∧
        gridInv rnn X h0 t k g2 := by
  intro k
  induction k with
  | zero => exact fun _ g hg => ⟨g, rfl, hg⟩
  | succ k ih =>
    intro hk1 g hg
    obtain ⟨g2, hrun, hinv2⟩ := ih (by omega) g hg
    obtain ⟨hstep, hinv3⟩ := stepCell_spec rnn X h0 B D hc t k ht (by omega) g2 hinv2
    refine ⟨_, ?_, hinv3⟩
    rw [upTo, forLoop_append, hrun, some_bind]
    show (stepCell rnn X h0 g2 t k).bind _ = _
    rw [hstep, some_bind]
    rfl

theorem runLoop_sound (rnn : RNNParams) (X : List Mat) (h0 : List Mat) (B D : ℕ)
    (hc : conformant rnn X h0 B D = true) :
    ∀ t, t ≤ X.length →
      ∃ g, forLoop (fun gg idx => innerLoop rnn X h0 idx gg) (upTo t)
          (initGrid X.length rnn.num_layers) = some g ∧
        gridInv rnn X h0 t 0 g := by
  intro t
  induction t with
  | zero => exact fun _ => ⟨_, rfl, gridInv_init rnn X h0⟩
  | succ t ih =>
    intro ht1
    obtain ⟨g, hrun, hinv⟩ := ih (by omega)
    obtain ⟨hL, _⟩ := conformant_props rnn X h0 B D hc
    obtain ⟨g2, hrun2, hinv2⟩ :=
      innerLoop_sound rnn X h0 B D hc t (by omega) rnn.num_layers le_rfl g hinv
    refine ⟨g2, ?_, gridInv_roll rnn X h0 t g2 hinv2⟩
    rw [upTo, forLoop_append, hrun, some_bind]
    show (innerLoop rnn X h0 t g).bind _ = _
    rw [show innerLoop rnn X h0 t g = some g2 from hrun2, some_bind]
    rfl

/-! ### Extracting the two output views -/

theorem gridFilled_of_inv (rnn : RNNParams) (X : List Mat) (h0 : List Mat) (g : Grid)
    (hinv : gridInv rnn X h0 X.length 0 g) : gridFilled g = true := by
  obtain ⟨hglen, hrow, hcells⟩ := hinv
  rw [gridFilled, List.all_eq_true]
  intro row hrowmem
  rw [List.all_eq_true]
  intro c hcmem
  obtain ⟨i, hi⟩ := nth_of_mem hrowmem
  obtain ⟨l, hl⟩ := nth_of_mem hcmem
  have hiX : i < X.length := by
    rw [← hglen]
    exact lt_length_of_nth g i row hi
  have hrownth : (nth g i).getD [] = row := by rw [hi]; rfl
  have hlL : l < rnn.num_layers := by
    rw [← hrow i hiX, hrownth]
    exact lt_length_of_nth row l c hl
  have := hcells i l hiX hlL
  rw [getCell, hrownth, hl, if_pos (by omega)] at this
  show c.isSome = true
  have hc2 : c = some (specGrid rnn X h0 i l) := by simpa using this
  rw [hc2]
  rfl

theorem lastCells_eq :
    ∀ (g : Grid) (L : ℕ) (f : ℕ → Mat), 1 ≤ L →
      (∀ i, i < g.length → ((nth g i).getD []).length = L ∧
        (nth ((nth g i).getD []) (L - 1)).getD none = some (f i)) →
      lastCells g = some ((upTo g.length).map f)
  | [], _, _, _, _ => rfl
  | row :: rest, L, f, hL, hrows => by
    obtain ⟨hlen0, hcell0⟩ := hrows 0 (by simp)
    have hlenr : row.length = L := hlen0
    have hcellr : nth row (L - 1) = some (some (f 0)) := getD_none_some _ _ hcell0
    have hrest := lastCells_eq rest L (fun i => f (i + 1)) hL (by
      intro i hi
      have := hrows (i + 1) (by simpa using Nat.succ_lt_succ hi)
      exact this)
    show ((pyLast row).bind id).bind
        (fun m => (lastCells rest).map (fun ms => m :: ms)) = _
    rw [pyLast, if_neg (by omega), hlenr, hcellr, hrest]
    show some (f 0 :: (upTo rest.length).map (fun i => f (i + 1))) =
      some ((upTo (rest.length + 1)).map f)
    rw [upTo_succ_cons, List.map_cons, List.map_map]
    rfl

theorem rowMats_eq :
    ∀ (row : List (Option Mat)) (f : ℕ → Mat),
      (∀ l, l < row.length → nth row l = some (some (f l))) →
      rowMats row = some ((upTo row.length).map f)
  | [], _, _ => rfl
  | c :: rest, f, hcells => by
    have h0 : c = some (f 0) := by
      have := hcells 0 (by simp)
      simpa [nth] using this
    have hrest := rowMats_eq rest (fun l => f (l + 1)) (by
      intro l hl
      have := hcells (l + 1) (by simpa using Nat.succ_lt_succ hl)
      exact this)
    show c.bind (fun m => (rowMats rest).map (fun ms => m :: ms)) = _
    rw [h0, hrest]
    show some (f 0 :: (upTo rest.length).map (fun l => f (l + 1))) =
      some ((upTo (rest.length + 1)).map f)
    rw [upTo_succ_cons, List.map_cons, List.map_map]
    rfl

/-! ### Main theorem: forward computes the two views of the spec grid -/

theorem forward_spec (rnn : RNNParams) (X : List Mat) (h0 : List Mat) (B D : ℕ)
    (hc : conformant rnn X h0 B D = true) (hT : 1 ≤ X.length) :
    forward rnn X (some h0) =
      some ((upTo X.length).map (fun t => specGrid rnn X h0 t (rnn.num_layers - 1)),
        (upTo rnn.num_layers).map (fun l => specGrid rnn X h0 (X.length - 1) l)) := by
  obtain ⟨hL, hH, hD, hX, hh0len, hlay⟩ := conformant_props rnn X h0 B D hc
  obtain ⟨g, hrun, hinv⟩ := runLoop_sound rnn X h0 B D hc X.length le_rfl
  obtain ⟨hglen, hrow, hcells⟩ := hinv
  have hrun2 : runLoop rnn X h0 X.length = some g := hrun
  have hfill : gridFilled g = true :=
    gridFilled_of_inv rnn X h0 g ⟨hglen, hrow, hcells⟩
  have hout : lastCells g =
      some ((upTo X.length).map (fun t => specGrid rnn X h0 t (rnn.num_layers - 1))) := by
    have := lastCells_eq g rnn.num_layers
      (fun t => specGrid rnn X h0 t (rnn.num_layers - 1)) hL (by
        intro i hi
        have hiX : i < X.length := by rw [← hglen]; exact hi
        refine ⟨hrow i hiX, ?_⟩
        show getCell g i (rnn.num_layers - 1) = _
        rw [hcells i (rnn.num_layers - 1) hiX (by omega), if_pos (by omega)])
    rw [this, hglen]
  have hlastrow : nth g (X.length - 1) = some ((nth g (X.length - 1)).getD []) :=
    nth_getD_of_lt g (X.length - 1) [] (by rw [hglen]; omega)
  have hfin : (pyLast g).bind rowMats =
      some ((upTo rnn.num_layers).map (fun l => specGrid rnn X h0 (X.length - 1) l)) := by
    rw [pyLast, if_neg (by rw [hglen]; omega), hglen, hlastrow, some_bind]
    have := rowMats_eq ((nth g (X.length - 1)).getD [])
      (fun l => specGrid rnn X h0 (X.length - 1) l) (by
        intro l hl
        have hlL : l < rnn.num_layers := by
          rw [← hrow (X.length - 1) (by omega)]
          exact hl
        apply getD_none_some
        show getCell g (X.length - 1) l = _
        rw [hcells (X.length - 1) l (by omega) hlL, if_pos (by omega)])
    rw [this, hrow (X.length - 1) (by omega)]
  show (match runLoop rnn X h0 X.length with
    | none => none
    | some hidden_states =>
      if gridFilled hidden_states then
        match lastCells hidden_states, (pyLast hidden_states).bind rowMats with
        | some out, some fin => some (out, fin)
        | _, _ => none
      else none) = _
  rw [hrun2]
  show (if gridFilled g then
      match lastCells g, (pyLast g).bind rowMats with
      | some out, some fin => some (out, fin)
      | _, _ => none
    else none) = _
  rw [hfill, if_pos rfl, hout, hfin]

/-! ### Further helper lemmas for the remaining claims -/

theorem forward_none_eq (rnn : RNNParams) (X : List Mat) :
    forward rnn X none =
      forward rnn X (some (defaultHidden0 rnn ((nth X 0).getD []).length)) := rfl

theorem forward_nil (rnn : RNNParams) (hidden_0 : Option (List Mat)) :
    forward rnn [] hidden_0 = none := rfl

theorem zipWith_congr {α β γ : Type _} (f g : α → β → γ) (h : ∀ a b, f a b = g a b) :
    ∀ (xs : List α) (ys : List β), List.zipWith f xs ys = List.zipWith g xs ys
  | [], ys => by cases ys <;> rfl
  | _ :: _, [] => rfl
  | x :: xs, y :: ys => by
    show f x y :: List.zipWith f xs ys = g x y :: List.zipWith g xs ys
    rw [h x y, zipWith_congr f g h xs ys]

theorem stepSpec_congr (rnn1 rnn2 : RNNParams) (l : ℕ)
    (hact : rnn1.activation_func = rnn2.activation_func)
    (hwhh : rnn1.weight_hh l = rnn2.weight_hh l)
    (hwih : rnn1.weight_ih l = rnn2.weight_ih l)
    (hbhh : ∀ j, bget (rnn1.bias_hh l) j = bget (rnn2.bias_hh l) j)
    (hbih : ∀ j, bget (rnn1.bias_ih l) j = bget (rnn2.bias_ih l) j)
    (prev inp : Mat) :
    stepSpec rnn1 l prev inp = stepSpec rnn2 l prev inp := by
  rw [stepSpec, stepSpec, stepFormula, stepFormula, hact, hwhh, hwih]
  apply zipWith_congr
  intro pr ir
  apply List.map_congr_left
  intro j _
  rw [hbhh j, hbih j]

theorem specRow_congr (rnn1 rnn2 : RNNParams) (xt : Mat)
    (hact : rnn1.activation_func = rnn2.activation_func)
    (hwhh : ∀ l, rnn1.weight_hh l = rnn2.weight_hh l)
    (hwih : ∀ l, rnn1.weight_ih l = rnn2.weight_ih l)
    (hbhh : ∀ l j, bget (rnn1.bias_hh l) j = bget (rnn2.bias_hh l) j)
    (hbih : ∀ l j, bget (rnn1.bias_ih l) j = bget (rnn2.bias_ih l) j)
    (prev1 prev2 : ℕ → Mat) :
    ∀ l, (∀ j, j ≤ l → prev1 j = prev2 j) →
      specRow rnn1 xt prev1 l = specRow rnn2 xt prev2 l
  | 0, hprev => by
    rw [specRow, specRow, hprev 0 le_rfl]
    exact stepSpec_congr rnn1 rnn2 0 hact (hwhh 0) (hwih 0) (hbhh 0) (hbih 0) _ _
  | l + 1, hprev => by
    rw [specRow, specRow, hprev (l + 1) le_rfl,
      specRow_congr rnn1 rnn2 xt hact hwhh hwih hbhh hbih prev1 prev2 l
        (fun j hj => hprev j (by omega))]
    exact stepSpec_congr rnn1 rnn2 (l + 1) hact (hwhh (l + 1)) (hwih (l + 1))
      (hbhh (l + 1)) (hbih (l + 1)) _ _

theorem specGrid_congr (rnn1 rnn2 : RNNParams) (X : List Mat) (h1 h2 : List Mat)
    (hact : rnn1.activation_func = rnn2.activation_func)
    (hwhh : ∀ l, rnn1.weight_hh l = rnn2.weight_hh l)
    (hwih : ∀ l, rnn1.weight_ih l = rnn2.weight_ih l)
    (hbhh : ∀ l j, bget (rnn1.bias_hh l) j = bget (rnn2.bias_hh l) j)
    (hbih : ∀ l j, bget (rnn1.bias_ih l) j = bget (rnn2.bias_ih l) j)
    (L : ℕ)
    (hh : ∀ j, j < L → (nth h1 j).getD [] = (nth h2 j).getD []) :
    ∀ t l, l < L → specGrid rnn1 X h1 t l = specGrid rnn2 X h2 t l := by
  intro t
  induction t with
  | zero =>
    intro l hl
    exact specRow_congr rnn1 rnn2 _ hact hwhh hwih hbhh hbih _ _ l
      (fun j hj => hh j (by omega))
  | succ t ih =>
    intro l hl
    exact specRow_congr rnn1 rnn2 _ hact hwhh hwih hbhh hbih _ _ l
      (fun j hj => ih j (by omega))

/-! ### Each loop cell is visited exactly once -/

theorem count_row_pairs (T : ℕ) :
    ∀ (L l : ℕ), l < L → ((upTo L).map (fun j => (T, j))).count (T, l) = 1 := by
  intro L
  induction L with
  | zero => intro l hl; omega
  | succ L ih =>
    intro l hl
    rw [upTo, List.map_append, List.count_append]
    have hmapsingle : (List.map (fun j => ((T, j) : ℕ × ℕ)) [L]) = [(T, L)] := rfl
    rw [hmapsingle]
    by_cases hlL : l < L
    · have hne : ((T, L) : ℕ × ℕ) ≠ (T, l) := by
        simp only [ne_eq, Prod.mk.injEq]
        omega
      have hnot : ((T, l) : ℕ × ℕ) ∉ [((T, L) : ℕ × ℕ)] := by
        simp only [List.mem_singleton]
        intro he
        exact hne he.symm
      rw [ih l hlL, List.count_eq_zero.mpr hnot]
    · have hlL2 : l = L := by omega
      rw [hlL2]
      have hnot : ((T, L) : ℕ × ℕ) ∉ (upTo L).map (fun j => (T, j)) := by
        intro hmem
        obtain ⟨j, hj, hje⟩ := List.mem_map.mp hmem
        rw [mem_upTo] at hj
        have : j = L := by
          have := congrArg Prod.snd hje
          simpa using this
        omega
      rw [List.count_eq_zero.mpr hnot]
      simp

theorem count_loop_pairs (T L t l : ℕ) (ht : t < T) (hl : l < L) :
    ((upTo T).flatMap (fun i => (upTo L).map (fun j => (i, j)))).count (t, l) = 1 := by
  induction T with
  | zero => omega
  | succ T ih =>
    rw [upTo, List.flatMap_append, List.count_append]
    have hsingle : ([T] : List ℕ).flatMap (fun i => (upTo L).map (fun j => (i, j))) =
        (upTo L).map (fun j => (T, j)) := by
      simp
    rw [hsingle]
    by_cases htT : t < T
    · rw [ih htT]
      have hnot : ((t, l) : ℕ × ℕ) ∉ (upTo L).map (fun j => (T, j)) := by
        intro hmem
        obtain ⟨j, _, hje⟩ := List.mem_map.mp hmem
        have : T = t := by
          have := congrArg Prod.fst hje
          simpa using this
        omega
      rw [List.count_eq_zero.mpr hnot]
    · have htT2 : t = T := by omega
      rw [htT2]
      have hnot : ((T, l) : ℕ × ℕ) ∉ (upTo T).flatMap (fun i => (upTo L).map fun j => (i, j)) := by
        intro hmem
        obtain ⟨i, hi, hmem2⟩ := List.mem_flatMap.mp hmem
        rw [mem_upTo] at hi
        obtain ⟨j, _, hje⟩ := List.mem_map.mp hmem2
        have : i = T := by
          have := congrArg Prod.fst hje
          simpa using this
        omega
      rw [List.count_eq_zero.mpr hnot, count_row_pairs T L l hl]

/-- Boolean check that an optional bias has the contracted length. -/
def biasOk (b : Option Vec) (H : ℕ) : Bool :=
  match b with
  | some v => v.length == H
  | none => true

theorem conformant_zero_bias (L H : ℕ) (whh wih : ℕ → Option Mat) (act : ℤ → ℤ)
    (X : List Mat) (h0 : List Mat) (B D : ℕ)
    (hc : conformant ⟨L, H, whh, fun _ => none, wih, fun _ => none, act⟩ X h0 B D = true) :
    conformant ⟨L, H, whh, fun _ => some (List.replicate H (0 : ℤ)), wih,
      fun _ => some (List.replicate H (0 : ℤ)), act⟩ X h0 B D = true := by
  rw [conformant] at hc ⊢
  simp only [Bool.and_eq_true, List.all_eq_true] at hc ⊢
  obtain ⟨⟨⟨⟨⟨hL, hH⟩, hD⟩, hX⟩, hlen⟩, hlay⟩ := hc
  refine ⟨⟨⟨⟨⟨hL, hH⟩, hD⟩, hX⟩, hlen⟩, ?_⟩
  intro x hx
  have hthis := hlay x hx
  simp only [Bool.and_eq_true] at hthis ⊢
  obtain ⟨⟨⟨⟨h1, h2⟩, h3⟩, _⟩, _⟩ := hthis
  refine ⟨⟨⟨⟨h1, h2⟩, h3⟩, ?_⟩, ?_⟩
  · show ((List.replicate H (0 : ℤ)).length == H) = true
    simp
  · show ((List.replicate H (0 : ℤ)).length == H) = true
    simp

/-- A two-layer example parameter store for concrete witnesses. -/
def exRNN : RNNParams where
  num_layers := 2
  hidden_size := 1
  weight_hh := fun _ => some [[(2 : ℤ)]]
  bias_hh := fun _ => some [(1 : ℤ)]
  weight_ih := fun _ => some [[(3 : ℤ)]]
  bias_ih := fun _ => some [(1 : ℤ)]
  activation_func := fun x => x

/-- A single-layer bias-free example store with the rectified-linear activation. -/
def exRNN1 : RNNParams where
  num_layers := 1
  hidden_size := 1
  weight_hh := fun _ => some [[(2 : ℤ)]]
  bias_hh := fun _ => none
  weight_ih := fun _ => some [[(3 : ℤ)]]
  bias_ih := fun _ => none
  activation_func := fun x => max x 0

/-! ### Claim theorems -/

/-- C1: for every conformant input sequence X of shape [seq_length, B, input_size]
and initial hidden state hidden_0 of shape [num_layers, B, H], forward returns
the pair (last_layer_outputs, final_hidden) where grid cell (t, l) is the Step
Function applied to the previous hidden state (hidden_0[l] if t = 0, else
grid[t-1, l]) and the layer input (X[t] if l = 0, else grid[t, l-1]) with layer
l's parameters; last_layer_outputs[t] = grid[t, num_layers-1] for every t and
final_hidden[l] = grid[seq_length-1, l] for every l. -/
theorem claim_C1_forward_grid (rnn : RNNParams) (X : List Mat) (h0 : List Mat) (B D : ℕ)
    (hc : conformant rnn X h0 B D = true) (hT : 1 ≤ X.length) :
    forward rnn X (some h0) =
      some ((upTo X.length).map (fun t => specGrid rnn X h0 t (rnn.num_layers - 1)),
        (upTo rnn.num_layers).map (fun l => specGrid rnn X h0 (X.length - 1) l)) ∧
    ∀ t, t < X.length → ∀ l, l < rnn.num_layers →
      specGrid rnn X h0 t l =
        stepSpec rnn l
          (if t = 0 then (nth h0 l).getD [] else specGrid rnn X h0 (t - 1) l)
          (if l = 0 then (nth X t).getD [] else specGrid rnn X h0 t (l - 1)) :=
  ⟨forward_spec rnn X h0 B D hc hT, fun t _ l _ => specGrid_rec rnn X h0 t l⟩

/-- Witness for C1 at a concrete two-layer, two-timestep instance. -/
theorem claim_C1_forward_grid_witness :
    forward exRNN [[[1]], [[1]]] (some [[[0]], [[0]]]) =
      some ([[[17]], [[81]]], [[[15]], [[81]]]) := by
  have h := (claim_C1_forward_grid exRNN [[[1]], [[1]]] [[[0]], [[0]]] 1 1
    (by decide) (by decide)).1
  rw [h]
  decide

/-- C2: for every conformant prev_hidden[B,H], inputs[B,D], weight_hh[H,H],
weight_ih[H,D], optional biases of length H, and any activation function,
compute_new_hidden_state returns the spec's formula
activation(prev_hidden . weight_hh^T + bias_hh + inputs . weight_ih^T + bias_ih)
with the biases broadcast over the batch and the activation applied
elementwise; in particular it never fails on conformant shapes. -/
theorem claim_C2_step_function (act : ℤ → ℤ) (Whh Wih prev inp : Mat)
    (bhh bih : Option Vec) (B H D : ℕ)
    (hH : 1 ≤ H) (hD : 1 ≤ D)
    (hWhh : shapedMat Whh H H = true) (hWih : shapedMat Wih H D = true)
    (hprev : shapedMat prev B H = true) (hinp : shapedMat inp B D = true)
    (hbhh : biasOk bhh H = true) (hbih : biasOk bih H = true) :
    compute_new_hidden_state prev inp Whh bhh Wih bih act =
      some (stepFormula act Whh bhh Wih bih prev inp) := by
  rw [shapedMat_iff] at hWhh hWih hprev hinp
  refine compute_eq act Whh Wih prev inp bhh bih H D hH hD hWhh.1 hWhh.2 hWih.1 hWih.2
    (by rw [hprev.1, hinp.1]) hprev.2 hinp.2 ?_ ?_
  · intro v hv
    rw [hv] at hbhh
    simpa [biasOk] using hbhh
  · intro v hv
    rw [hv] at hbih
    simpa [biasOk] using hbih

/-- Witness for C2 at a concrete 1-by-1 instance with both biases present. -/
theorem claim_C2_step_function_witness :
    compute_new_hidden_state [[(0 : ℤ)]] [[(1 : ℤ)]] [[(2 : ℤ)]] (some [(1 : ℤ)])
        [[(3 : ℤ)]] (some [(1 : ℤ)]) (fun x => x) =
      some (stepFormula (fun x => x) [[(2 : ℤ)]] (some [(1 : ℤ)]) [[(3 : ℤ)]]
        (some [(1 : ℤ)]) [[(0 : ℤ)]] [[(1 : ℤ)]]) :=
  claim_C2_step_function (fun x => x) [[(2 : ℤ)]] [[(3 : ℤ)]] [[(0 : ℤ)]] [[(1 : ℤ)]]
    (some [(1 : ℤ)]) (some [(1 : ℤ)]) 1 1 1 (by decide) (by decide) (by decide)
    (by decide) (by decide) (by decide) (by decide) (by decide)

/-- C5: calling forward with hidden_0 absent returns exactly the same pair as
calling it with the all-zero tensor of shape [num_layers, B, H], where B is
X's batch dimension. -/
theorem claim_C5_zero_default (rnn : RNNParams) (X : List Mat) :
    forward rnn X none =
      forward rnn X (some (defaultHidden0 rnn ((nth X 0).getD []).length)) :=
  forward_none_eq rnn X

/-- C6: the activation selected from the configured nonlinearity is
rectified-linear exactly when the string is "relu"; every other string,
including "tanh" and misspellings, selects the hyperbolic tangent, and the
selection never fails. -/
theorem claim_C6_activation_selection (s : String) :
    (selectActivation s = Activation.relu ↔ s = "relu") ∧
    (selectActivation s = Activation.tanh ↔ s ≠ "relu") := by
  rw [selectActivation]
  by_cases h : s = "relu"
  · subst h
    simp
  · simp [h]

/-- Witness for C6 at the strings relu, tanh and a misspelling of tanh. -/
theorem claim_C6_activation_selection_witness :
    selectActivation "relu" = Activation.relu ∧
    selectActivation "tanh" = Activation.tanh ∧
    selectActivation "tannh" = Activation.tanh :=
  ⟨(claim_C6_activation_selection "relu").1.mpr rfl,
   (claim_C6_activation_selection "tanh").2.mpr (by decide),
   (claim_C6_activation_selection "tannh").2.mpr (by decide)⟩

/-- C10: on an empty input sequence, forward does not return a pair of empty
outputs: the double loop runs zero iterations leaving the empty grid, the
no-sentinel assertion passes vacuously, the last_layer_outputs slice is empty,
but extracting final_hidden indexes the empty time dimension with -1 and
fails, so the whole call errors out. -/
theorem claim_C10_empty_sequence (rnn : RNNParams) (hidden_0 : Option (List Mat))
    (h0 : List Mat) :
    forward rnn [] hidden_0 = none ∧
    runLoop rnn [] h0 0 = some (initGrid 0 rnn.num_layers) ∧
    gridFilled (initGrid 0 rnn.num_layers) = true ∧
    lastCells (initGrid 0 rnn.num_layers) = some [] ∧
    pyLast (initGrid 0 rnn.num_layers) = none :=
  ⟨rfl, rfl, rfl, rfl, rfl⟩

/-- C3 counterexample: a call whose hidden_0 layer count (2) disagrees with
num_layers (1) does not fail at all — forward accepts it and returns
normally, so shape mismatches are not raised eagerly before computation. -/
theorem claim_C3_counterexample :
    ([[[0]], [[7]]] : List Mat).length ≠ exRNN1.num_layers ∧
    forward exRNN1 [[[(1 : ℤ)]]] (some [[[0]], [[7]]]) = some ([[[3]]], [[[3]]]) := by
  decide

/-- C3 amended: the source performs no eager shape validation; a mismatch in
X's feature dimension raises an error lazily, inside the very first step
computation of the loop (and is never recovered), while other mismatches such
as a hidden_0 with extra layers are accepted silently. -/
theorem claim_C3_lazy_shape_error (rnn : RNNParams) (X : List Mat) (h0 : List Mat) (D : ℕ)
    (hL : 1 ≤ rnn.num_layers) (hH : 1 ≤ rnn.hidden_size) (hD : 1 ≤ D)
    (hT : 1 ≤ X.length) (hh0len : 1 ≤ h0.length)
    (hh0rows : ∀ r ∈ (nth h0 0).getD [], r.length = rnn.hidden_size)
    (hWhh : rnn.weight_hh 0 = some ((rnn.weight_hh 0).getD []))
    (hWhhs : shapedMat ((rnn.weight_hh 0).getD []) rnn.hidden_size rnn.hidden_size = true)
    (hWih : rnn.weight_ih 0 = some ((rnn.weight_ih 0).getD []))
    (hWihs : shapedMat ((rnn.weight_ih 0).getD []) rnn.hidden_size D = true)
    (hbhh : biasOk (rnn.bias_hh 0) rnn.hidden_size = true)
    (r : Vec) (hr : r ∈ (nth X 0).getD []) (hrD : r.length ≠ D) :
    stepCell rnn X h0 (initGrid X.length rnn.num_layers) 0 0 = none ∧
    forward rnn X (some h0) = none := by
  rw [shapedMat_iff] at hWhhs hWihs
  have hbhh2 : ∀ v, rnn.bias_hh 0 = some v → v.length = rnn.hidden_size := by
    intro v hv
    rw [hv] at hbhh
    simpa [biasOk] using hbhh
  have hA1rows : ∀ rr ∈ ((nth h0 0).getD []).map
      (fun r2 => ((rnn.weight_hh 0).getD []).map (fun w => dot r2 w)),
      rr.length = rnn.hidden_size := by
    intro rr hrr
    obtain ⟨q, _, rfl⟩ := List.mem_map.mp hrr
    simp [hWhhs.1]
  have hcompute : compute_new_hidden_state ((nth h0 0).getD []) ((nth X 0).getD [])
      ((rnn.weight_hh 0).getD []) (rnn.bias_hh 0) ((rnn.weight_ih 0).getD [])
      (rnn.bias_ih 0) rnn.activation_func = none := by
    rw [compute_new_hidden_state,
      matmul_tT ((nth h0 0).getD []) ((rnn.weight_hh 0).getD []) rnn.hidden_size
        rnn.hidden_size hWhhs.1 hH hH hWhhs.2 hh0rows, some_bind,
      addBias_eq _ (rnn.bias_hh 0) rnn.hidden_size hA1rows hbhh2, some_bind,
      matmul_tT_fail ((nth X 0).getD []) ((rnn.weight_ih 0).getD []) rnn.hidden_size D
        hWihs.1 hH hWihs.2 r hr hrD]
    rfl
  obtain ⟨h00, hh00⟩ := nth_lt h0 0 (by omega)
  have hstep : stepCell rnn X h0 (initGrid X.length rnn.num_layers) 0 0 = none := by
    simp only [stepCell]
    rw [if_pos trivial]
    simp only [some_bind]
    rw [nth_map_some some h0 0 _ hh00]
    simp only [some_bind]
    rw [if_pos trivial, nth_getD_of_lt X 0 [] (by omega)]
    simp only [some_bind]
    rw [hWhh]
    simp only [some_bind]
    rw [hWih]
    simp only [some_bind]
    rw [show h00 = (nth h0 0).getD [] from by rw [hh00]; rfl, hcompute]
    rfl
  refine ⟨hstep, ?_⟩
  have hrunnone : runLoop rnn X h0 X.length = none := by
    obtain ⟨tl, htl⟩ := upTo_pos_cons X.length hT
    obtain ⟨tl2, htl2⟩ := upTo_pos_cons rnn.num_layers hL
    show forLoop (fun g idx => innerLoop rnn X h0 idx g) (upTo X.length)
      (initGrid X.length rnn.num_layers) = none
    rw [htl]
    show (innerLoop rnn X h0 0 (initGrid X.length rnn.num_layers)).bind
      (forLoop (fun g idx => innerLoop rnn X h0 idx g) tl) = none
    show (forLoop (fun g2 layer => stepCell rnn X h0 g2 0 layer) (upTo rnn.num_layers)
        (initGrid X.length rnn.num_layers)).bind
      (forLoop (fun g idx => innerLoop rnn X h0 idx g) tl) = none
    rw [htl2]
    show ((stepCell rnn X h0 (initGrid X.length rnn.num_layers) 0 0).bind
        (forLoop (fun g2 layer => stepCell rnn X h0 g2 0 layer) tl2)).bind
      (forLoop (fun g idx => innerLoop rnn X h0 idx g) tl) = none
    rw [hstep]
    rfl
  show (match runLoop rnn X h0 X.length with
    | none => none
    | some hidden_states =>
      if gridFilled hidden_states then
        match lastCells hidden_states, (pyLast hidden_states).bind rowMats with
        | some out, some fin => some (out, fin)
        | _, _ => none
      else none) = none
  rw [hrunnone]

/-- Witness for the amended C3: a feature-dimension mismatch (row length 2,
layer-0 input dimension 1) makes the first step computation, and hence the
whole forward call, fail. -/
theorem claim_C3_lazy_shape_error_witness :
    stepCell exRNN1 [[[(2 : ℤ), 3]]] [[[0]]] (initGrid 1 1) 0 0 = none ∧
    forward exRNN1 [[[(2 : ℤ), 3]]] (some [[[0]]]) = none :=
  claim_C3_lazy_shape_error exRNN1 [[[(2 : ℤ), 3]]] [[[0]]] 1 (by decide) (by decide)
    (by decide) (by decide) (by decide) (by decide) (by decide) (by decide) (by decide)
    (by decide) (by decide) [(2 : ℤ), 3] (by decide) (by decide)

/-- C4: on conformant NaN-free inputs (the model has no NaN; the sentinel is
an unfilled cell) with a nonempty sequence, the double loop succeeds, every
grid cell has been written with its spec value, the loop visits every cell
index exactly once, no sentinel remains so the coverage assertion passes, and
forward returns normally. -/
theorem claim_C4_full_coverage (rnn : RNNParams) (X : List Mat) (h0 : List Mat) (B D : ℕ)
    (hc : conformant rnn X h0 B D = true) (hT : 1 ≤ X.length) :
    ∃ g, runLoop rnn X h0 X.length = some g ∧
      (∀ t, t < X.length → ∀ l, l < rnn.num_layers →
        getCell g t l = some (specGrid rnn X h0 t l)) ∧
      gridFilled g = true ∧
      (∀ t, t < X.length → ∀ l, l < rnn.num_layers →
        ((upTo X.length).flatMap
          (fun i => (upTo rnn.num_layers).map (fun j => (i, j)))).count (t, l) = 1) ∧
      (forward rnn X (some h0)).isSome = true := by
  obtain ⟨g, hrun, hinv⟩ := runLoop_sound rnn X h0 B D hc X.length le_rfl
  obtain ⟨hglen, hrow, hcells⟩ := hinv
  refine ⟨g, hrun, ?_, gridFilled_of_inv rnn X h0 g ⟨hglen, hrow, hcells⟩, ?_, ?_⟩
  · intro t ht l hl
    rw [hcells t l ht hl, if_pos (by omega)]
  · intro t ht l hl
    exact count_loop_pairs X.length rnn.num_layers t l ht hl
  · rw [forward_spec rnn X h0 B D hc hT]
    rfl

/-- Witness for C4: the concrete two-layer call returns normally. -/
theorem claim_C4_full_coverage_witness :
    (forward exRNN [[[1]], [[1]]] (some [[[0]], [[0]]])).isSome = true := by
  obtain ⟨g, _, _, _, _, hs⟩ := claim_C4_full_coverage exRNN [[[1]], [[1]]]
    [[[0]], [[0]]] 1 1 (by decide) (by decide)
  exact hs

/-- C7: running forward with a parameter store whose bias lookups yield the
additive zero default (bias absent) returns exactly the same outputs as
running it with the same weights and bias vectors fixed at all-zero, for
every X and hidden_0 (present or absent) conformant with the weights. -/
theorem claim_C7_bias_absence (L H : ℕ) (whh wih : ℕ → Option Mat) (act : ℤ → ℤ)
    (X : List Mat) (hidden_0 : Option (List Mat)) (B D : ℕ)
    (hc : conformant ⟨L, H, whh, fun _ => none, wih, fun _ => none, act⟩ X
      (match hidden_0 with
       | none => defaultHidden0 ⟨L, H, whh, fun _ => none, wih, fun _ => none, act⟩
           ((nth X 0).getD []).length
       | some h => h) B D = true) :
    forward ⟨L, H, whh, fun _ => none, wih, fun _ => none, act⟩ X hidden_0 =
      forward ⟨L, H, whh, fun _ => some (List.replicate H (0 : ℤ)), wih,
        fun _ => some (List.replicate H (0 : ℤ)), act⟩ X hidden_0 := by
  have hbg : ∀ j : ℕ, bget (none : Option Vec) j =
      bget (some (List.replicate H (0 : ℤ))) j := by
    intro j
    show (0 : ℤ) = (nth (List.replicate H (0 : ℤ)) j).getD 0
    by_cases hj : j < H
    · rw [nth_replicate (0 : ℤ) H j hj]
      rfl
    · rw [nth_eq_none _ j (by rw [List.length_replicate]; omega)]
      rfl
  have key : ∀ h0 : List Mat,
      conformant ⟨L, H, whh, fun _ => none, wih, fun _ => none, act⟩ X h0 B D = true →
      forward ⟨L, H, whh, fun _ => none, wih, fun _ => none, act⟩ X (some h0) =
        forward ⟨L, H, whh, fun _ => some (List.replicate H (0 : ℤ)), wih,
          fun _ => some (List.replicate H (0 : ℤ)), act⟩ X (some h0) := by
    intro h0 hc0
    by_cases hT : 1 ≤ X.length
    · obtain ⟨hL1, _⟩ := conformant_props _ X h0 B D hc0
      have hL2 : 1 ≤ L := hL1
      have hcZ := conformant_zero_bias L H whh wih act X h0 B D hc0
      have hsg := specGrid_congr
        ⟨L, H, whh, fun _ => none, wih, fun _ => none, act⟩
        ⟨L, H, whh, fun _ => some (List.replicate H (0 : ℤ)), wih,
          fun _ => some (List.replicate H (0 : ℤ)), act⟩
        X h0 h0 rfl (fun _ => rfl) (fun _ => rfl) (fun _ j => hbg j) (fun _ j => hbg j)
        L (fun j _ => rfl)
      rw [forward_spec _ X h0 B D hc0 hT, forward_spec _ X h0 B D hcZ hT]
      congr 1
      congr 1
      · apply List.map_congr_left
        intro t _
        exact hsg t (L - 1) (by omega)
      · apply List.map_congr_left
        intro l hl
        exact hsg (X.length - 1) l ((mem_upTo _ _).mp hl)
    · have hX0 : X = [] := List.length_eq_zero.mp (by omega)
      subst hX0
      rfl
  cases hidden_0 with
  | some h => exact key h hc
  | none =>
    rw [forward_none_eq, forward_none_eq]
    exact key _ hc

/-- Witness for C7 at a concrete single-layer call with hidden_0 present. -/
theorem claim_C7_bias_absence_witness :
    forward ⟨1, 1, (fun _ => some [[(2 : ℤ)]]), fun _ => none,
        (fun _ => some [[(3 : ℤ)]]), fun _ => none, fun x => x⟩ [[[1]]] (some [[[0]]]) =
      forward ⟨1, 1, (fun _ => some [[(2 : ℤ)]]), fun _ => some (List.replicate 1 (0 : ℤ)),
        (fun _ => some [[(3 : ℤ)]]), fun _ => some (List.replicate 1 (0 : ℤ)), fun x => x⟩
        [[[1]]] (some [[[0]]]) :=
  claim_C7_bias_absence 1 1 (fun _ => some [[(2 : ℤ)]]) (fun _ => some [[(3 : ℤ)]])
    (fun x => x) [[[1]]] (some [[[0]]]) 1 1 (by decide)

/-- C8: for a single-layer model, the returned final_hidden[0] is the last
element of the returned output sequence. -/
theorem claim_C8_single_layer (rnn : RNNParams) (X : List Mat) (h0 : List Mat) (B D : ℕ)
    (hc : conformant rnn X h0 B D = true) (hL1 : rnn.num_layers = 1) (hT : 1 ≤ X.length) :
    ∀ out fin, forward rnn X (some h0) = some (out, fin) →
      nth fin 0 = pyLast out := by
  intro out fin hfwd
  rw [forward_spec rnn X h0 B D hc hT] at hfwd
  injection hfwd with h
  injection h with hout hfin
  rw [← hout, ← hfin, hL1]
  rw [nth_upTo_map (fun l => specGrid rnn X h0 (X.length - 1) l) 1 0 (by omega)]
  rw [pyLast, if_neg (by rw [List.length_map, length_upTo]; omega),
    List.length_map, length_upTo,
    nth_upTo_map (fun t => specGrid rnn X h0 t (1 - 1)) X.length (X.length - 1) (by omega)]

/-- Witness for C8 at a concrete single-layer call. -/
theorem claim_C8_single_layer_witness :
    nth ([[[(3 : ℤ)]]] : List Mat) 0 = pyLast ([[[(3 : ℤ)]]] : List Mat) :=
  claim_C8_single_layer exRNN1 [[[(1 : ℤ)]]] [[[0]]] 1 1 (by decide) (by decide)
    (by decide) [[[3]]] [[[3]]] (by decide)

/-- C9: the outputs of forward depend only on the first num_layers slices of
hidden_0: two conformant initial hidden states agreeing on layers below
num_layers give identical outputs, and in particular a hidden_0 with more
rows than num_layers is accepted without error and its extra rows never
influence the result. -/
theorem claim_C9_hidden_rows_ignored (rnn : RNNParams) (X : List Mat) (h1 h2 : List Mat)
    (B D : ℕ) (hc1 : conformant rnn X h1 B D = true) (hc2 : conformant rnn X h2 B D = true)
    (hagree : ∀ l, l < rnn.num_layers → nth h1 l = nth h2 l)
    (hT : 1 ≤ X.length) :
    forward rnn X (some h1) = forward rnn X (some h2) ∧
    (forward rnn X (some h1)).isSome = true := by
  have hsg := specGrid_congr rnn rnn X h1 h2 rfl (fun _ => rfl) (fun _ => rfl)
    (fun _ _ => rfl) (fun _ _ => rfl) rnn.num_layers
    (fun j hj => by rw [hagree j hj])
  obtain ⟨hL, _⟩ := conformant_props rnn X h1 B D hc1
  constructor
  · rw [forward_spec rnn X h1 B D hc1 hT, forward_spec rnn X h2 B D hc2 hT]
    congr 1
    congr 1
    · apply List.map_congr_left
      intro t _
      exact hsg t (rnn.num_layers - 1) (by omega)
    · apply List.map_congr_left
      intro l hl
      exact hsg (X.length - 1) l ((mem_upTo _ _).mp hl)
  · rw [forward_spec rnn X h1 B D hc1 hT]
    rfl

/-- Witness for C9: a hidden_0 with one extra layer row gives the same
output as the one-row hidden_0 and the call succeeds. -/
theorem claim_C9_hidden_rows_ignored_witness :
    forward exRNN1 [[[(1 : ℤ)]]] (some [[[0]]]) =
      forward exRNN1 [[[(1 : ℤ)]]] (some [[[0]], [[9]]]) ∧
    (forward exRNN1 [[[(1 : ℤ)]]] (some [[[0]]])).isSome = true :=
  claim_C9_hidden_rows_ignored exRNN1 [[[(1 : ℤ)]]] [[[0]]] [[[0]], [[9]]] 1 1
    (by decide) (by decide) (by decide) (by decide)

end RNN
